import Mathlib

/-!
Verification development for the MochaCodespace editor (src/main.py).

The file shallowly embeds the parts of the program that the specification
talks about:

* the rule-based syntax highlighter (`SyntaxHighlighter.setup_rules` and
  `SyntaxHighlighter.highlightBlock`),
* the language registry `LANG_CONFIG` and the keyword table
  `LANGUAGE_KEYWORDS`,
* language detection on file open (`MochaCodespace.open_file`),
* tab saving (`EditorTab.save`),
* command construction with a compile step (`MochaCodespace.get_run_command`
  together with the dispatch in `MochaCodespace.run_code`),
* the bounded process runner (`RunnerThread.run`).

Text is modelled as `List Char`; regular-expression rules are modelled by
executable scanners that reproduce the semantics of `re.finditer` on the
concrete patterns appearing in the source (left-to-right scan, non-empty,
non-overlapping matches).  Character classes follow the ASCII reading of
the patterns, which is exact for the ASCII texts the properties mention.
-/

namespace Mocha

/-- Token categories; each corresponds to one of the five
`QTextCharFormat` values built in `SyntaxHighlighter.setup_rules`
(keyword, string, number, function/call-target, comment). -/
inductive Cat where
  | Keyword
  | Str
  | Number
  | CallTarget
  | Comment
  deriving DecidableEq, Repr

/-- The render buffer: for each character offset of the block, the category
last written by `setFormat`, if any. -/
def Buffer : Type := Nat → Option Cat

/-- Model of `QSyntaxHighlighter.setFormat(start, length, fmt)`: positions
in `[start, start+len)` are overwritten with category `c`. -/
def setFormat (buf : Buffer) (start len : Nat) (c : Cat) : Buffer :=
  fun i => if start ≤ i ∧ i < start + len then some c else buf i

/-- Apply `setFormat` for every match `(start, length)` of one rule, in
list order (the inner loop of `highlightBlock`). -/
def writeMatches (buf : Buffer) (ms : List (Nat × Nat)) (c : Cat) : Buffer :=
  match ms with
  | [] => buf
  | (s, l) :: rest => writeMatches (setFormat buf s l c) rest c

/-- A highlighting rule: the match-finding function of its compiled
pattern, together with the category of its format. -/
def Rule : Type := (List Char → List (Nat × Nat)) × Cat

/-- The outer loop of `SyntaxHighlighter.highlightBlock`: rules are applied
in list order onto the buffer, later rules overwriting earlier ones. -/
def applyRules (t : List Char) (buf : Buffer) (rules : List Rule) : Buffer :=
  match rules with
  | [] => buf
  | r :: rest => applyRules t (writeMatches buf (r.1 t) r.2) rest

/-- Model of `SyntaxHighlighter.highlightBlock(text)`: start from an
unformatted buffer and apply every rule in order. -/
def highlightBlock (rules : List Rule) (t : List Char) : Buffer :=
  applyRules t (fun _ => none) rules

/-- A span list covers offset `i` when some `(start, length)` member
contains it. -/
def covers (ms : List (Nat × Nat)) (i : Nat) : Prop :=
  ∃ p ∈ ms, p.1 ≤ i ∧ i < p.1 + p.2

instance coversDec (ms : List (Nat × Nat)) (i : Nat) : Decidable (covers ms i) := by
  unfold covers; infer_instance

/- ### Character classes and scanning -/

/-- ASCII reading of the regex word class `\w` = `[A-Za-z0-9_]`. -/
def isWordChar (c : Char) : Bool :=
  c.isAlpha || c.isDigit || c == '_'

/-- First character class of the call-target pattern, `[A-Za-z_]`. -/
def isIdentStart (c : Char) : Bool :=
  c.isAlpha || c == '_'

/-- Length of the longest run of characters satisfying `p` at the head of
the list (used for the greedy `*` and `+` repetitions of the patterns). -/
def runLen (p : Char → Bool) : List Char → Nat
  | [] => 0
  | c :: rest => if p c then runLen p rest + 1 else 0

/-- Character of `t` at offset `i`, if in range. -/
def charAt (t : List Char) (i : Nat) : Option Char :=
  t.get? i

/-- Whether the character at offset `i` exists and is a word character. -/
def wordAt (t : List Char) (i : Nat) : Bool :=
  match charAt t i with
  | some c => isWordChar c
  | none => false

/-- The regex word boundary `\b` holds just before offset `s` for a match
that begins with a word character: `s` is the start of the text or the
previous character is not a word character. -/
def boundaryBefore (t : List Char) (s : Nat) : Bool :=
  decide (s = 0) || !(wordAt t (s - 1))

/-- One step of `re.finditer`: given a function `f` that computes the
(positive) length of the pattern match starting at a given offset, scan
left to right; after a match of length `l`, resume at its end.  `fuel`
dominates the number of remaining offsets, so `t.length` suffices. -/
def scanAux (f : List Char → Nat → Option Nat) (t : List Char) :
    Nat → Nat → List (Nat × Nat)
  | 0, _ => []
  | fuel + 1, s =>
    if t.length ≤ s then []
    else
      match f t s with
      | some l => (s, l) :: scanAux f t fuel (s + max l 1)
      | none => scanAux f t fuel (s + 1)

/-- All matches of a pattern in the text, in `re.finditer` order. -/
def reFinditer (f : List Char → Nat → Option Nat) (t : List Char) :
    List (Nat × Nat) :=
  scanAux f t t.length 0

/- ### The individual patterns of `setup_rules` -/

/-- Match of the keyword pattern `\b<word>\b` at offset `s`: the word
occurs literally at `s` with word boundaries on both sides.  (All
registered keywords consist of word characters, so both boundaries reduce
to the neighbour not being a word character.) -/
def kwMatchAt (w : List Char) (t : List Char) (s : Nat) : Option Nat :=
  if boundaryBefore t s ∧ (t.drop s).take w.length = w ∧ !wordAt t (s + w.length)
  then some w.length else none

/-- Tail of a double-quoted string body for the pattern
`"[^"\\]*(\\.[^"\\]*)*"`: number of characters consumed up to and
including the closing quote; `none` when the string is unterminated or a
backslash is followed by a newline or nothing (the `.` after `\\` does not
match a newline). -/
def dstrEnd : List Char → Option Nat
  | [] => none
  | c :: rest =>
    if c = '"' then some 1
    else if c = '\\' then
      match rest with
      | [] => none
      | d :: rest2 => if d = '\n' then none else (dstrEnd rest2).map (· + 2)
    else (dstrEnd rest).map (· + 1)

/-- Match of the double-quoted string pattern at offset `s`. -/
def dstrMatchAt (t : List Char) (s : Nat) : Option Nat :=
  if charAt t s = some '"' then (dstrEnd (t.drop (s + 1))).map (· + 1) else none

/-- Tail of a single-quoted string body for `'[^'\\]*(\\.[^'\\]*)*'`. -/
def sstrEnd : List Char → Option Nat
  | [] => none
  | c :: rest =>
    if c = '\'' then some 1
    else if c = '\\' then
      match rest with
      | [] => none
      | d :: rest2 => if d = '\n' then none else (sstrEnd rest2).map (· + 2)
    else (sstrEnd rest).map (· + 1)

/-- Match of the single-quoted string pattern at offset `s`. -/
def sstrMatchAt (t : List Char) (s : Nat) : Option Nat :=
  if charAt t s = some '\'' then (sstrEnd (t.drop (s + 1))).map (· + 1) else none

/-- Match of the number pattern `\b\d+\.?\d*\b` at offset `s`, with the
backtracking behaviour of the Python engine: the greedy form
digits-dot-digits is tried first; if the trailing boundary fails the
engine drops the fractional digits (succeeding when a word character
follows the dot) and finally the dot itself (succeeding because the dot is
not a word character). -/
def numMatchAt (t : List Char) (s : Nat) : Option Nat :=
  if boundaryBefore t s then
    let d1 := runLen Char.isDigit (t.drop s)
    if d1 = 0 then none
    else
      let p := s + d1
      if charAt t p = some '.' then
        let d2 := runLen Char.isDigit (t.drop (p + 1))
        if 0 < d2 ∧ !wordAt t (p + 1 + d2) then some (d1 + 1 + d2)
        else if wordAt t (p + 1) then some (d1 + 1)
        else some d1
      else if wordAt t p then none
      else some d1
  else none

/-- Match of the call-target pattern `\b[A-Za-z_][A-Za-z0-9_]*(?=\()` at
offset `s`: an identifier run starting at a boundary whose next character
is an opening parenthesis, which the lookahead does not consume. -/
def callMatchAt (t : List Char) (s : Nat) : Option Nat :=
  match charAt t s with
  | none => none
  | some c =>
    if boundaryBefore t s ∧ isIdentStart c then
      if charAt t (s + runLen isWordChar (t.drop s)) = some '(' then
        some (runLen isWordChar (t.drop s))
      else none
    else none

/-- Match of a to-end-of-line comment pattern `<m₁m₂…>[^\n]*` given its
leading marker characters. -/
def lineCommentMatchAt (marker : List Char) (t : List Char) (s : Nat) :
    Option Nat :=
  if (t.drop s).take marker.length = marker then
    some (marker.length + runLen (fun c => !(c == '\n')) (t.drop (s + marker.length)))
  else none

/-- Offset of the earliest occurrence of `pat` in the list, if any (the
non-greedy search for a closing delimiter). -/
def findSub (pat : List Char) : List Char → Option Nat
  | [] => none
  | c :: rest =>
    if (c :: rest).take pat.length = pat then some 0
    else (findSub pat rest).map (· + 1)

/-- Match of a delimited comment pattern such as `/\*.*?\*/` (with
`re.DOTALL`) at offset `s`: the opening delimiter followed by the nearest
closing delimiter. -/
def blockCommentMatchAt (openD closeD : List Char) (t : List Char) (s : Nat) :
    Option Nat :=
  if (t.drop s).take openD.length = openD then
    (findSub closeD (t.drop (s + openD.length))).map
      (fun k => openD.length + k + closeD.length)
  else none

/- ### Keyword table (`LANGUAGE_KEYWORDS`) -/

/-- Keywords and autocomplete suggestions per language, in the order of
the `LANGUAGE_KEYWORDS` dictionary of the source. -/
def LANGUAGE_KEYWORDS : List (String × List String) := [
  ("PTX", [
    "AL2P", "ALD", "AST", "B2R", "BFE", "BFI", "BMMA", "BMOV", "BMSK", "BREV",
    "BRK", "CCTL", "CCTLL", "CCTLT", "CONT", "CS2R", "CSET", "CSETP", "DADD",
    "DEPBAR", "DFMA", "DMMA", "DMNMX", "DMUL", "DSET", "DSETP", "F2F", "F2FP",
    "F2I", "F2IP", "FADD", "FADD32I", "FCHK", "FCMP", "FFMA", "FFMA32I", "FLO",
    "FMNMX", "FMUL", "FMUL32I", "FRND", "FSEL", "FSET", "FSETP", "FSWZADD",
    "GETCRSPTR", "GETLMEMBASE", "HADD2", "HFMA2", "HMMA", "HMNMX2", "HMUL2",
    "HSET2", "HSETP2", "I2F", "I2FP", "I2I", "I2IP", "IABS", "IADD", "IADD3",
    "IADD32I", "ICMP", "IDE", "IDP", "IMAD", "IMAD32I", "IMADSP", "IMMA", "IMNMX",
    "IMUL", "IMUL32I", "IPA", "ISBERD", "ISBEWR", "ISCADD", "ISCADD32I", "ISET", "ISETP",
    "JCAL", "LDC", "LDGDEPBAR", "LDGSTS", "LEA", "LEPC", "LONGJMP", "LOP", "LOP3",
    "LOP32I", "MATCH", "MOV", "MOV32I", "MOVM", "MUFU", "NOP", "OUT", "P2R", "PCNT",
    "PEXIT", "PIXLD", "PLONGJMP", "PLOP3", "POPC", "PRMT", "PSET", "PSETP", "QSPC",
    "R2B", "R2P", "R2UR", "RAM", "REDUX", "RRO", "RTT", "S2R", "S2UR", "SAM", "SEL",
    "SETCRSPTR", "SETLMEMBASE", "SGXT", "SHF", "SHFL", "SHL", "SHR", "STP", "TLD4S",
    "TLDS", "TMML", "TXA", "TXD", "TXQ", "UBREV", "UFLO", "UIADD3", "UIMAD", "UISETP",
    "ULDC", "ULEA", "ULOP3", "UMOV", "UP2UR", "UPLOP3", "UPOPC", "UPRMT", "USEL",
    "USGXT", "USHF", "VABSDIFF", "VABSDIFF4", "VADD", "VMAD", "VMNMX", "VOTE", "VOTEU",
    "VSET", "VSETP", "VSHL", "VSHR", "XMAD"]),
  ("Python", [
    "and", "as", "assert", "async", "await", "break", "class", "continue",
    "def", "del", "elif", "else", "except", "False", "finally", "for",
    "from", "global", "if", "import", "in", "is", "lambda", "None",
    "nonlocal", "not", "or", "pass", "raise", "return", "True", "try",
    "while", "with", "yield", "print", "len", "range", "str", "int",
    "float", "list", "dict", "set", "tuple", "open", "self", "__init__"]),
  ("Java", [
    "abstract", "assert", "boolean", "break", "byte", "case", "catch",
    "char", "class", "const", "continue", "default", "do", "double",
    "else", "enum", "extends", "final", "finally", "float", "for",
    "if", "implements", "import", "instanceof", "int", "interface",
    "long", "native", "new", "package", "private", "protected", "public",
    "return", "short", "static", "strictfp", "super", "switch", "synchronized",
    "this", "throw", "throws", "transient", "try", "void", "volatile", "while",
    "String", "System", "out", "println", "main", "args"]),
  ("C", [
    "auto", "break", "case", "char", "const", "continue", "default", "do",
    "double", "else", "enum", "extern", "float", "for", "goto", "if",
    "int", "long", "register", "return", "short", "signed", "sizeof",
    "static", "struct", "switch", "typedef", "union", "unsigned", "void",
    "volatile", "while", "printf", "scanf", "malloc", "free", "NULL",
    "include", "define", "stdio", "stdlib", "string"]),
  ("C++", [
    "alignas", "alignof", "and", "and_eq", "asm", "auto", "bitand", "bitor",
    "bool", "break", "case", "catch", "char", "class", "const", "constexpr",
    "continue", "decltype", "default", "delete", "do", "double", "dynamic_cast",
    "else", "enum", "explicit", "export", "extern", "false", "float", "for",
    "friend", "goto", "if", "inline", "int", "long", "mutable", "namespace",
    "new", "noexcept", "not", "nullptr", "operator", "or", "private", "protected",
    "public", "return", "short", "signed", "sizeof", "static", "struct", "switch",
    "template", "this", "throw", "true", "try", "typedef", "typeid", "typename",
    "union", "unsigned", "using", "virtual", "void", "volatile", "while",
    "cout", "cin", "endl", "string", "vector", "iostream", "std"]),
  ("JavaScript", [
    "async", "await", "break", "case", "catch", "class", "const", "continue",
    "debugger", "default", "delete", "do", "else", "export", "extends", "false",
    "finally", "for", "function", "if", "import", "in", "instanceof", "let",
    "new", "null", "return", "super", "switch", "this", "throw", "true",
    "try", "typeof", "var", "void", "while", "with", "yield",
    "console", "log", "document", "window", "Array", "Object", "String",
    "Number", "Boolean", "Math", "Date", "JSON", "Promise", "setTimeout"]),
  ("TypeScript", [
    "abstract", "any", "as", "async", "await", "boolean", "break", "case",
    "catch", "class", "const", "continue", "debugger", "declare", "default",
    "delete", "do", "else", "enum", "export", "extends", "false", "finally",
    "for", "from", "function", "if", "implements", "import", "in", "instanceof",
    "interface", "is", "keyof", "let", "module", "namespace", "never", "new",
    "null", "number", "of", "package", "private", "protected", "public",
    "readonly", "require", "return", "static", "string", "super", "switch",
    "symbol", "this", "throw", "true", "try", "type", "typeof", "undefined",
    "unique", "unknown", "var", "void", "while", "with", "yield"]),
  ("Rust", [
    "as", "async", "await", "break", "const", "continue", "crate", "dyn",
    "else", "enum", "extern", "false", "fn", "for", "if", "impl", "in",
    "let", "loop", "match", "mod", "move", "mut", "pub", "ref", "return",
    "self", "Self", "static", "struct", "super", "trait", "true", "type",
    "unsafe", "use", "where", "while", "String", "Vec", "Option", "Result",
    "println", "print", "format", "panic", "unwrap", "expect"]),
  ("Go", [
    "break", "case", "chan", "const", "continue", "default", "defer", "else",
    "fallthrough", "for", "func", "go", "goto", "if", "import", "interface",
    "map", "package", "range", "return", "select", "struct", "switch", "type",
    "var", "fmt", "Println", "Printf", "Sprintf", "main", "string", "int",
    "bool", "float64", "error", "nil", "true", "false", "make", "len", "append"]),
  ("Ruby", [
    "alias", "and", "begin", "break", "case", "class", "def", "defined",
    "do", "else", "elsif", "end", "ensure", "false", "for", "if", "in",
    "module", "next", "nil", "not", "or", "redo", "rescue", "retry",
    "return", "self", "super", "then", "true", "undef", "unless", "until",
    "when", "while", "yield", "puts", "print", "gets", "attr_accessor",
    "attr_reader", "attr_writer", "initialize", "new", "require"]),
  ("HTML", [
    "html", "head", "title", "body", "div", "span", "p", "a", "img",
    "ul", "ol", "li", "table", "tr", "td", "th", "form", "input",
    "button", "select", "option", "textarea", "label", "h1", "h2",
    "h3", "h4", "h5", "h6", "header", "footer", "nav", "section",
    "article", "aside", "main", "script", "style", "link", "meta",
    "br", "hr", "strong", "em", "code", "pre"]),
  ("CSS", [
    "color", "background", "background-color", "font-family", "font-size",
    "font-weight", "margin", "padding", "border", "width", "height",
    "display", "position", "top", "left", "right", "bottom", "flex",
    "grid", "justify-content", "align-items", "text-align", "cursor",
    "transition", "transform", "opacity", "z-index", "overflow", "box-shadow"])]

/-- Association-list lookup mirroring `dict.get(key, default)` on the
insertion-ordered dictionaries of the source. -/
def dictGet {α : Type} (table : List (String × α)) (key : String)
    (dflt : α) : α :=
  match table with
  | [] => dflt
  | (k, v) :: rest => if k = key then v else dictGet rest key dflt

/- ### Rule assembly (`SyntaxHighlighter.setup_rules`) -/

/-- One keyword rule, compiled from `\b<word>\b`. -/
def kwRule (w : String) : Rule :=
  (reFinditer (kwMatchAt w.data), Cat.Keyword)

/-- The double-quoted string rule. -/
def dstrRule : Rule := (reFinditer dstrMatchAt, Cat.Str)

/-- The single-quoted string rule. -/
def sstrRule : Rule := (reFinditer sstrMatchAt, Cat.Str)

/-- The numeric-literal rule. -/
def numRule : Rule := (reFinditer numMatchAt, Cat.Number)

/-- The function/call-target rule. -/
def callRule : Rule := (reFinditer callMatchAt, Cat.CallTarget)

/-- The `#`-to-end-of-line comment rule. -/
def hashCommentRule : Rule :=
  (reFinditer (lineCommentMatchAt ['#']), Cat.Comment)

/-- The `--`-to-end-of-line comment rule. -/
def dashCommentRule : Rule :=
  (reFinditer (lineCommentMatchAt ['-', '-']), Cat.Comment)

/-- The `//`-to-end-of-line comment rule. -/
def slashCommentRule : Rule :=
  (reFinditer (lineCommentMatchAt ['/', '/']), Cat.Comment)

/-- The `/*...*/` block comment rule (compiled with `re.DOTALL`). -/
def blockCommentRule : Rule :=
  (reFinditer (blockCommentMatchAt ['/', '*'] ['*', '/']), Cat.Comment)

/-- The `<!--...-->` markup comment rule (compiled with `re.DOTALL`). -/
def htmlCommentRule : Rule :=
  (reFinditer (blockCommentMatchAt ['<', '!', '-', '-'] ['-', '-', '>']),
   Cat.Comment)

/-- The language-specific comment rules appended at the end of
`setup_rules`, following its `if`/`elif` chain. -/
def commentRules (language : String) : List Rule :=
  if language ∈ ["Python", "Ruby", "Nix"] then [hashCommentRule]
  else if language = "Lua" then [dashCommentRule]
  else if language ∈ ["C", "C++", "Java", "JavaScript", "TypeScript",
                      "Rust", "Go", "C#", "Kotlin"] then
    [slashCommentRule, blockCommentRule]
  else if language = "HTML" then [htmlCommentRule]
  else if language = "CSS" then [blockCommentRule]
  else []

/-- Model of `SyntaxHighlighter.setup_rules`: keyword rules for every word
of the language (none when the language is absent from the keyword
table), then the two string rules, the number rule, the call-target rule
and finally the comment rules. -/
def setupRules (language : String) : List Rule :=
  (dictGet LANGUAGE_KEYWORDS language []).map kwRule
    ++ [dstrRule, sstrRule, numRule, callRule]
    ++ commentRules language

/-- Highlighting one block of text in a given language: the composition of
`setup_rules` and `highlightBlock`. -/
def classify (language : String) (text : String) : Buffer :=
  highlightBlock (setupRules language) text.data

/- ### Paths and the language registry (`LANG_CONFIG`) -/

/-- Model of the `pathlib.Path` values the program manipulates, keeping
exactly the components the source uses: the directory part (`parent`),
the file name without its last extension (`stem`) and the last extension
including its dot (`suffix`, empty when the name has none). -/
structure Pathm where
  parent : String
  stem : String
  suffix : String
  deriving DecidableEq, Repr

/-- Rendering `str(path)`. -/
def strPath (p : Pathm) : String :=
  p.parent ++ "/" ++ p.stem ++ p.suffix

/-- Model of `path.name`. -/
def Pathm.name (p : Pathm) : String :=
  p.stem ++ p.suffix

/-- Model of `path.with_suffix(ext)`: replace the last extension. -/
def withSuffix (p : Pathm) (ext : String) : Pathm :=
  ⟨p.parent, p.stem, ext⟩

/-- Model of `path.resolve().as_uri()` (only its shape matters here). -/
def uriOf (p : Pathm) : String :=
  "file://" ++ strPath p

/-- Abstract stand-in for the value of `sys.executable`. -/
def sysExecutable : String := "python3"

/-- A `runner` entry of `LANG_CONFIG`: either a string tag dispatched by
`get_run_command`, or a callable building the command directly. -/
inductive RunnerVal where
  | tag (s : String)
  | direct (f : Pathm → List String)

/-- The callable runner of the Python entry. -/
def pythonRunner (f : Pathm) : List String := [sysExecutable, strPath f]

/-- The callable runner of the JavaScript entry. -/
def jsRunner (f : Pathm) : List String := ["node", strPath f]

/-- The callable runner of the Go entry. -/
def goRunner (f : Pathm) : List String := ["go", "run", strPath f]

/-- The callable runner of the Ruby entry. -/
def rubyRunner (f : Pathm) : List String := ["ruby", strPath f]

/-- The callable runner of the Lua entry. -/
def luaRunner (f : Pathm) : List String := ["lua", strPath f]

/-- One value of the `LANG_CONFIG` dictionary. -/
structure LangCfg where
  ext : String
  sample : String
  comment : String
  runner : RunnerVal

/-- The language registry, in the insertion order of the source's
`LANG_CONFIG` dictionary. -/
def LANG_CONFIG : List (String × LangCfg) := [
  ("PTX", ⟨".ptx", "examples/hello.ptx", "// ", .tag "ptx"⟩),
  ("Python", ⟨".py", "examples/hello.py", "# ", .direct pythonRunner⟩),
  ("Java", ⟨".java", "examples/Hello.java", "// ", .tag "java"⟩),
  ("C", ⟨".c", "examples/hello.c", "// ", .tag "c"⟩),
  ("C++", ⟨".cpp", "examples/hello.cpp", "// ", .tag "cpp"⟩),
  ("JavaScript", ⟨".js", "examples/hello.js", "// ", .direct jsRunner⟩),
  ("TypeScript", ⟨".ts", "examples/hello.ts", "// ", .tag "typescript"⟩),
  ("Rust", ⟨".rs", "examples/hello.rs", "// ", .tag "rust"⟩),
  ("Go", ⟨".go", "examples/hello.go", "// ", .direct goRunner⟩),
  ("C#", ⟨".cs", "examples/hello.cs", "// ", .tag "csharp"⟩),
  ("Ruby", ⟨".rb", "examples/hello.rb", "# ", .direct rubyRunner⟩),
  ("Kotlin", ⟨".kt", "examples/hello.kt", "// ", .tag "kotlin"⟩),
  ("HTML", ⟨".html", "examples/index.html", "<!-- ", .tag "browser"⟩),
  ("CSS", ⟨".css", "examples/styles.css", "/* ", .tag "browser"⟩),
  ("Lua", ⟨".lua", "examples/hello.lua", "-- ", .direct luaRunner⟩),
  ("Nix", ⟨".nix", "examples/shell.nix", "# ", .tag "nix"⟩)]

/-- Association-list lookup mirroring `dict.get(key)` (no default). -/
def dictFind {α : Type} (table : List (String × α)) (key : String) :
    Option α :=
  match table with
  | [] => none
  | (k, v) :: rest => if k = key then some v else dictFind rest key

/- ### Language detection on open (`MochaCodespace.open_file`) -/

/-- Model of `str.lower()` as a character-wise map (exact for the ASCII
suffixes involved here). -/
def lowerStr (s : String) : String :=
  ⟨s.data.map Char.toLower⟩

/-- The detection loop of `open_file`: walk the registry in order and stop
at the first entry whose extension equals the (already lowercased)
suffix; the variable keeps its initial value `"Python"` when no entry
matches. -/
def lookupByExt : List (String × LangCfg) → String → String
  | [], _ => "Python"
  | (lang, cfg) :: rest, e => if cfg.ext = e then lang else lookupByExt rest e

/-- Model of the language inference of `open_file`: the file's suffix is
lowercased (`filepath.suffix.lower()`) and looked up in the registry. -/
def detectLanguage (suffix : String) : String :=
  lookupByExt LANG_CONFIG (lowerStr suffix)

/- ### Saving a tab (`EditorTab.save`) -/

/-- The extension `LANG_CONFIG.get(language, {}).get("ext", "")`. -/
def langExt (language : String) : String :=
  match dictFind LANG_CONFIG language with
  | some cfg => cfg.ext
  | none => ""

/-- Model of `EditorTab.save`: the optional argument overrides the stored
path; without any path the method returns `False` (here `none`);
otherwise, when the language has a configured extension differing from
the path's suffix, the path is rewritten with `with_suffix` before the
file is written.  The returned path is the one passed to `open(..., 'w')`.  -/
def savePath (language : String) (stored arg : Option Pathm) : Option Pathm :=
  let fp := match arg with
    | some p => some p
    | none => stored
  match fp with
  | none => none
  | some p =>
    let ext := langExt language
    if ext ≠ "" ∧ p.suffix ≠ ext then some (withSuffix p ext) else some p

/- ### Toolchain invocation (`MochaCodespace.get_run_command`) -/

/-- Result of one `subprocess.run(..., capture_output=True, text=True)`
invocation as the environment resolves it: the binary is absent from the
path (`FileNotFoundError`), or it ran with an exit code and captured
output streams. -/
inductive ProcRes where
  | notFound
  | ran (exitCode : Nat) (stdout stderr : String)

/-- The execution environment: what each spawned command does. -/
structure Ctx where
  env : List String → ProcRes

/-- Result of `get_run_command`: the run command (`None` when no run must
be attempted), the console messages appended while constructing it, and
the URIs handed to `webbrowser.open`. -/
structure GRCOut where
  cmd : Option (List String)
  console : List String
  opened : List String
  deriving DecidableEq, Repr

/-- The verbatim compile-failure message
`f"Compilation failed:\n{e.stderr}\n"`. -/
def compileFailedMsg (diagnostics : String) : String :=
  "Compilation failed:\n" ++ diagnostics ++ "\n"

/-- Model of `MochaCodespace.get_run_command` (the `runner` argument is
`None` for a language without a registry entry).  The `dotnet new
console` bootstrap of the C# branch only creates files next to the
source and does not change the returned command, so it is not recorded. -/
def getRunCommand (ctx : Ctx) (filepath : Pathm) (runner : Option RunnerVal) :
    GRCOut :=
  match runner with
  | some (.direct f) => ⟨some (f filepath), [], []⟩
  | some (.tag t) =>
    if t = "java" then
      match ctx.env ["javac", strPath filepath] with
      | .notFound => ⟨none, ["Java compiler (javac) not found in PATH\n"], []⟩
      | .ran e _ err =>
        if e ≠ 0 then ⟨none, [compileFailedMsg err], []⟩
        else ⟨some ["java", filepath.stem], if err ≠ "" then [err] else [], []⟩
    else if t = "c" then
      let exe := withSuffix filepath ".out"
      match ctx.env ["gcc", strPath filepath, "-o", strPath exe] with
      | .notFound => ⟨none, ["C compiler (gcc) not found in PATH\n"], []⟩
      | .ran e _ err =>
        if e ≠ 0 then ⟨none, [compileFailedMsg err], []⟩
        else ⟨some [strPath exe], if err ≠ "" then [err] else [], []⟩
    else if t = "cpp" then
      let exe := withSuffix filepath ".out"
      match ctx.env ["g++", strPath filepath, "-o", strPath exe] with
      | .notFound => ⟨none, ["C++ compiler (g++) not found in PATH\n"], []⟩
      | .ran e _ err =>
        if e ≠ 0 then ⟨none, [compileFailedMsg err], []⟩
        else ⟨some [strPath exe], if err ≠ "" then [err] else [], []⟩
    else if t = "rust" then
      let exe := withSuffix filepath ".out"
      match ctx.env ["rustc", strPath filepath, "-o", strPath exe] with
      | .notFound => ⟨none, ["Rust compiler (rustc) not found in PATH\n"], []⟩
      | .ran e _ err =>
        if e ≠ 0 then ⟨none, [compileFailedMsg err], []⟩
        else ⟨some [strPath exe], if err ≠ "" then [err] else [], []⟩
    else if t = "typescript" then
      let jsFile := withSuffix filepath ".js"
      match ctx.env ["tsc", strPath filepath] with
      | .notFound =>
        ⟨none, ["TypeScript compiler (tsc) not found in PATH\n"], []⟩
      | .ran e _ err =>
        if e ≠ 0 then ⟨none, [compileFailedMsg err], []⟩
        else
          let warn := if err ≠ "" then [err] else []
          match ctx.env ["node", "--version"] with
          | .ran 0 _ _ => ⟨some ["node", strPath jsFile], warn, []⟩
          | _ =>
            ⟨none, warn ++ ["Node not found - opened compiled JS in browser\n"],
             [uriOf jsFile]⟩
    else if t = "kotlin" then
      let jarFile : Pathm := ⟨filepath.parent, "output", ".jar"⟩
      match ctx.env ["kotlinc", strPath filepath, "-include-runtime", "-d",
                     strPath jarFile] with
      | .notFound => ⟨none, ["Kotlin compiler (kotlinc) not found in PATH\n"], []⟩
      | .ran e _ err =>
        if e ≠ 0 then ⟨none, [compileFailedMsg err], []⟩
        else ⟨some ["java", "-jar", strPath jarFile],
              if err ≠ "" then [err] else [], []⟩
    else if t = "csharp" then
      match ctx.env ["dotnet", "--version"] with
      | .ran 0 _ _ => ⟨some ["dotnet", "run"], [], []⟩
      | _ => ⟨none, [".NET SDK not found in PATH\n"], []⟩
    else if t = "nix" then
      match ctx.env ["nix", "--version"] with
      | .ran 0 _ _ =>
        if Pathm.name filepath = "flake.nix" then
          ⟨some ["nix", "develop", "."], [], []⟩
        else ⟨some ["nix-shell", strPath filepath], [], []⟩
      | _ => ⟨none, ["Nix not found in PATH\n"], []⟩
    else ⟨none, [], []⟩
  | none => ⟨none, [], []⟩

/-- Result of the dispatch tail of `run_code`: the command of the
`RunnerThread` it starts, if any, with the console messages appended
after the `Running ...` banner and the browser URIs opened. -/
structure RunCodeOut where
  started : Option (List String)
  console : List String
  opened : List String
  deriving DecidableEq, Repr

/-- Model of the dispatch in `MochaCodespace.run_code` after the file is
saved: browser runners short-circuit to `webbrowser.open`; otherwise
`get_run_command` is consulted and a `RunnerThread` is started exactly
when it returned a command. -/
def runCode (ctx : Ctx) (filepath : Pathm) (language : String) : RunCodeOut :=
  let runner : Option RunnerVal := (dictFind LANG_CONFIG language).map (·.runner)
  match runner with
  | some (.tag "browser") =>
    ⟨none, ["Opened " ++ Pathm.name filepath ++ " in browser\n"], [uriOf filepath]⟩
  | r =>
    let g := getRunCommand ctx filepath r
    match g.cmd with
    | none =>
      ⟨none, g.console ++
        ["Cannot run " ++ language ++ " files (compiler/interpreter not found)\n"],
       g.opened⟩
    | some c => ⟨some c, g.console, g.opened⟩

/- ### The bounded runner (`RunnerThread.run`) -/

/-- How the spawned child behaves, as the `try` block observes it:
`Popen` raises (missing binary, permission denied, or any other
exception rendered by `str(e)`), or `communicate` returns the captured
streams within the timeout, or `communicate` raises `TimeoutExpired`. -/
inductive ProcBehavior where
  | spawnFail (msg : String)
  | exits (stdout stderr : String)
  | hangsPastTimeout

/-- Observable actions of `RunnerThread.run`: an `output` signal emission,
the `finished` signal emission, and a forcible termination of the child
(which the source never performs). -/
inductive RunEvent where
  | emitOutput (s : String)
  | emitFinished
  | killProcess
  deriving DecidableEq, Repr

/-- The wall-clock timeout passed to `process.communicate` in
`RunnerThread.run`. -/
def RUN_TIMEOUT : Nat := 60

/-- Model of `RunnerThread.run`: the ordered list of actions it performs
for each behaviour of the child process. -/
def runnerRun (b : ProcBehavior) : List RunEvent :=
  match b with
  | .spawnFail m => [.emitOutput ("\n[Error: " ++ m ++ "]\n"), .emitFinished]
  | .exits out err =>
    (if out ≠ "" then [.emitOutput out] else []) ++
      (if err ≠ "" then [.emitOutput err] else []) ++ [.emitFinished]
  | .hangsPastTimeout =>
    [.emitOutput "\n[Execution timeout after 60 seconds]\n", .emitFinished]

/- ### Lemmas about the render buffer -/

/-- A span list written by `writeMatches` overwrites exactly the covered
offsets with its category. -/
lemma writeMatches_eq (ms : List (Nat × Nat)) (buf : Buffer) (c : Cat)
    (i : Nat) :
    writeMatches buf ms c i = if covers ms i then some c else buf i := by
  induction ms generalizing buf with
  | nil =>
    simp only [writeMatches]
    have : ¬ covers [] i := by simp [covers]
    simp [this]
  | cons p rest ih =>
    obtain ⟨s, l⟩ := p
    have hcov : covers ((s, l) :: rest) i ↔
        (s ≤ i ∧ i < s + l) ∨ covers rest i := by
      constructor
      · rintro ⟨q, hq, hle, hlt⟩
        rcases List.mem_cons.mp hq with rfl | hq
        · exact Or.inl ⟨hle, hlt⟩
        · exact Or.inr ⟨q, hq, hle, hlt⟩
      · rintro (⟨hle, hlt⟩ | ⟨q, hq, hle, hlt⟩)
        · exact ⟨(s, l), List.mem_cons_self _ _, hle, hlt⟩
        · exact ⟨q, List.mem_cons_of_mem _ hq, hle, hlt⟩
    simp only [writeMatches]
    rw [ih]
    by_cases h1 : covers rest i
    · simp [h1, hcov]
    · by_cases h2 : s ≤ i ∧ i < s + l
      · simp [h1, h2, hcov, setFormat]
      · simp [h1, h2, hcov, setFormat]

/-- Applying a concatenation of rule lists is applying them in sequence. -/
lemma applyRules_append (t : List Char) (buf : Buffer)
    (rs₁ rs₂ : List Rule) :
    applyRules t buf (rs₁ ++ rs₂) = applyRules t (applyRules t buf rs₁) rs₂ := by
  induction rs₁ generalizing buf with
  | nil => rfl
  | cons r rest ih =>
    simp only [List.cons_append, applyRules]
    exact ih _

/-- Rules none of whose matches cover an offset leave it unchanged. -/
lemma applyRules_nocover (t : List Char) (buf : Buffer) (rs : List Rule)
    (i : Nat) (h : ∀ r ∈ rs, ¬ covers (r.1 t) i) :
    applyRules t buf rs i = buf i := by
  induction rs generalizing buf with
  | nil => rfl
  | cons r rest ih =>
    simp only [applyRules]
    rw [ih _ (fun r' hr' => h r' (List.mem_cons_of_mem _ hr')),
        writeMatches_eq]
    simp [h r (List.mem_cons_self _ _)]

/-- Every category present in the final buffer is the category of one of
the applied rules (or was present before). -/
lemma applyRules_some (t : List Char) (buf : Buffer) (rs : List Rule)
    (i : Nat) (c : Cat) (h : applyRules t buf rs i = some c) :
    buf i = some c ∨ ∃ r ∈ rs, r.2 = c := by
  induction rs generalizing buf with
  | nil => exact Or.inl h
  | cons r rest ih =>
    simp only [applyRules] at h
    rcases ih _ h with hw | ⟨r', hr', hc⟩
    · rw [writeMatches_eq] at hw
      by_cases hcov : covers (r.1 t) i
      · simp only [hcov, if_pos] at hw
        exact Or.inr ⟨r, List.mem_cons_self _ _, (Option.some_inj.mp hw)⟩
      · simp only [hcov, if_neg, not_false_iff] at hw
        exact Or.inl hw
    · exact Or.inr ⟨r', List.mem_cons_of_mem _ hr', hc⟩

/- ### C3: compositing order -/

/-- C3: when spans produced by different rules overlap, the rule occurring
later in the language's rule list wins on the overlap (later `setFormat`
writes overwrite earlier ones); the comment rule sits last in the Python
rule list, so highlighting `# if True` in Python yields the Comment
category on the whole nine-character line, with no residual Keyword
classification on `if` or `True`. -/
theorem later_rule_wins_and_comment_overrides :
    (∀ (rs₁ rs₂ : List Rule) (r : Rule) (t : List Char) (i : Nat),
        covers (r.1 t) i → (∀ r' ∈ rs₂, ¬ covers (r'.1 t) i) →
        highlightBlock (rs₁ ++ r :: rs₂) t i = some r.2) ∧
    (setupRules "Python").getLast?.map (fun r => r.2) = some Cat.Comment ∧
    (∀ i < 9, classify "Python" "# if True" i = some Cat.Comment) ∧
    (∀ i < 9, classify "Python" "# if True" i ≠ some Cat.Keyword) := by
  refine ⟨?_, by rfl, by decide, by decide⟩
  intro rs₁ rs₂ r t i hc hnc
  unfold highlightBlock
  rw [applyRules_append]
  simp only [applyRules]
  rw [applyRules_nocover _ _ _ _ hnc, writeMatches_eq]
  simp [hc]

/-- Witness for C3: the compositing theorem applied to the concrete
one-rule list consisting of the hash-comment rule on the text `# x`. -/
theorem later_rule_wins_witness :
    covers (hashCommentRule.1 "# x".data) 0 ∧
    highlightBlock [hashCommentRule] "# x".data 0 = some Cat.Comment := by
  refine ⟨by decide, ?_⟩
  exact later_rule_wins_and_comment_overrides.1 [] [] hashCommentRule
    "# x".data 0 (by decide) (by simp)

/- ### C4: languages absent from the keyword table -/

/-- Counterexample to C4: for the unregistered language id `X` the rule
list built by `setup_rules` is not empty (it keeps the two string rules,
the number rule and the call-target rule), and classifying the text `123`
does produce a span: offset 0 is classified as a Number. -/
theorem unregistered_rules_not_empty :
    dictGet LANGUAGE_KEYWORDS "X" [] = [] ∧
    (setupRules "X").length = 4 ∧
    classify "X" "123" 0 = some Cat.Number := by
  refine ⟨by decide, by rfl, by decide⟩

/-- C4 (amended): a language id absent from the keyword table gets no
keyword rules, hence classification never yields a Keyword span (and, the
model being a total function, never an error); the generic string, number
and call-target rules — and for some ids a comment rule — remain. -/
theorem unregistered_language_no_keyword_spans :
    ∀ (language : String), dictGet LANGUAGE_KEYWORDS language [] = [] →
      (∀ r ∈ setupRules language, r.2 ≠ Cat.Keyword) ∧
      (∀ (text : String) (i : Nat),
        classify language text i ≠ some Cat.Keyword) := by
  intro language hkw
  have hcomment : ∀ r ∈ commentRules language, r.2 = Cat.Comment := by
    intro r hr
    unfold commentRules at hr
    split_ifs at hr <;>
      simp only [List.mem_cons, List.not_mem_nil, or_false] at hr <;>
      rcases hr with rfl | rfl <;> rfl
  have hrules : ∀ r ∈ setupRules language, r.2 ≠ Cat.Keyword := by
    intro r hr
    unfold setupRules at hr
    rw [hkw] at hr
    simp only [List.map_nil, List.nil_append, List.mem_append,
      List.mem_cons, List.not_mem_nil, or_false] at hr
    rcases hr with (rfl | rfl | rfl | rfl) | hr
    · decide
    · decide
    · decide
    · decide
    · rw [hcomment r hr]; decide
  refine ⟨hrules, ?_⟩
  intro text i hcl
  rcases applyRules_some _ _ _ _ _ hcl with hbuf | ⟨r, hr, hc⟩
  · exact Option.noConfusion hbuf
  · exact hrules r hr hc

/-- Witness for C4: instantiated at the unregistered id `X` on `123`. -/
theorem unregistered_language_no_keyword_spans_witness :
    classify "X" "123" 0 ≠ some Cat.Keyword :=
  (unregistered_language_no_keyword_spans "X" (by decide)).2 "123" 0

/- ### Registry lemmas -/

/-- A successful `dict.get` lookup names an entry of the table. -/
lemma dictFind_mem {α : Type} (table : List (String × α)) (key : String)
    (v : α) (h : dictFind table key = some v) : (key, v) ∈ table := by
  induction table with
  | nil => exact Option.noConfusion h
  | cons p rest ih =>
    obtain ⟨k, v'⟩ := p
    simp only [dictFind] at h
    by_cases hk : k = key
    · rw [if_pos hk, Option.some_inj] at h
      subst hk; subst h
      exact List.mem_cons_self _ _
    · rw [if_neg hk] at h
      exact List.mem_cons_of_mem _ (ih h)

/-- The detection loop keeps its initial value `"Python"` when no registry
extension equals the probed suffix. -/
lemma lookupByExt_nomatch (table : List (String × LangCfg)) (e : String)
    (h : ∀ pr ∈ table, pr.2.ext ≠ e) : lookupByExt table e = "Python" := by
  induction table with
  | nil => rfl
  | cons p rest ih =>
    obtain ⟨lang, cfg⟩ := p
    simp only [lookupByExt]
    rw [if_neg (h (lang, cfg) (List.mem_cons_self _ _)),
        ih (fun pr hpr => h pr (List.mem_cons_of_mem _ hpr))]

/-- Checked over the whole registry: each extension is already lowercase
and its reverse lookup lands on its own language. -/
lemma lookup_ext_registry :
    ∀ pr ∈ LANG_CONFIG,
      lookupByExt LANG_CONFIG pr.2.ext = pr.1 ∧
      lowerStr pr.2.ext = pr.2.ext := by decide

/- ### C1: the fallback language on open -/

/-- Counterexample to C1: no registered extension matches `.xyz`, yet the
language inferred for it by `open_file` is the hardcoded default
`Python`, not the first entry of the registry, which is `PTX`. -/
theorem open_default_not_first_entry :
    detectLanguage ".xyz" = "Python" ∧
    (LANG_CONFIG.map Prod.fst).head? = some "PTX" ∧
    ("Python" : String) ≠ "PTX" ∧
    (∀ pr ∈ LANG_CONFIG, pr.2.ext ≠ lowerStr ".xyz") := by
  exact ⟨rfl, rfl, by decide, by decide⟩

/-- C1 (amended): for every file path whose (lowercased) suffix matches no
registered extension, the open-file language inference returns the
hardcoded default `Python` — the second entry of the registry, not its
first entry `PTX`. -/
theorem open_no_match_defaults_to_python :
    ∀ (suffix : String),
      (∀ pr ∈ LANG_CONFIG, pr.2.ext ≠ lowerStr suffix) →
      detectLanguage suffix = "Python" := by
  intro s h
  exact lookupByExt_nomatch LANG_CONFIG (lowerStr s) h

/-- Witness for the amended C1, at the unregistered suffix `.xyz`. -/
theorem open_no_match_defaults_to_python_witness :
    detectLanguage ".xyz" = "Python" :=
  open_no_match_defaults_to_python ".xyz" (by decide)

/- ### C2: extension uniqueness and round trip -/

/-- C2: extensions are pairwise distinct across the registry, and for
every registered language id the configured extension round-trips through
the reverse-extension lookup of `open_file` back to the same id. -/
theorem ext_unique_and_round_trips :
    (LANG_CONFIG.map (fun pr => pr.2.ext)).Nodup ∧
    (∀ (lang : String) (cfg : LangCfg),
      dictFind LANG_CONFIG lang = some cfg →
      detectLanguage cfg.ext = lang) := by
  refine ⟨by decide, ?_⟩
  intro lang cfg h
  have hmem := dictFind_mem _ _ _ h
  have hreg := lookup_ext_registry (lang, cfg) hmem
  unfold detectLanguage
  rw [hreg.2]
  exact hreg.1

/-- Witness for C2: the Python entry round-trips. -/
theorem ext_unique_and_round_trips_witness :
    detectLanguage ".py" = "Python" :=
  ext_unique_and_round_trips.2 "Python"
    ⟨".py", "examples/hello.py", "# ", .direct pythonRunner⟩ rfl

/- ### C10: case-insensitive extension matching -/

/-- C10: the reverse-extension lookup lowercases the file's suffix before
comparing, so any suffix that lowercases to a registered language's
extension is mapped to that language rather than to the default. -/
theorem detect_lowercases_suffix :
    ∀ (lang : String) (cfg : LangCfg) (suffix : String),
      dictFind LANG_CONFIG lang = some cfg →
      lowerStr suffix = cfg.ext →
      detectLanguage suffix = lang := by
  intro lang cfg s hfind hlow
  unfold detectLanguage
  rw [hlow]
  exact (lookup_ext_registry (lang, cfg) (dictFind_mem _ _ _ hfind)).1

/-- Witness for C10: the all-caps suffix `.PY` still maps to Python. -/
theorem detect_lowercases_suffix_witness :
    detectLanguage ".PY" = "Python" :=
  detect_lowercases_suffix "Python"
    ⟨".py", "examples/hello.py", "# ", .direct pythonRunner⟩ ".PY" rfl (by decide)

/- ### C9: saving forces the language's extension -/

/-- C9: for a tab whose language has a configured (nonempty) extension,
the path actually written by `save` always carries that extension; when
the requested path's suffix differs, the path is rewritten with
`with_suffix` (no message, no error) before writing. -/
theorem save_forces_language_ext :
    ∀ (language : String) (cfg : LangCfg),
      dictFind LANG_CONFIG language = some cfg → cfg.ext ≠ "" →
      (∀ (stored arg : Option Pathm) (q : Pathm),
          savePath language stored arg = some q → q.suffix = cfg.ext) ∧
      (∀ (stored : Option Pathm) (p : Pathm), p.suffix ≠ cfg.ext →
          savePath language stored (some p) = some (withSuffix p cfg.ext)) := by
  intro language cfg hfind hne
  have hext : langExt language = cfg.ext := by
    unfold langExt; rw [hfind]
  constructor
  · intro stored arg q hq
    unfold savePath at hq
    rcases arg with _ | p
    · rcases stored with _ | p
      · exact Option.noConfusion hq
      · simp only [hext] at hq
        split_ifs at hq with hcase
        · rw [Option.some_inj] at hq
          subst hq; rfl
        · rw [Option.some_inj] at hq
          subst hq
          rcases not_and_or.mp hcase with h | h
          · exact absurd hne (by simpa using h)
          · simpa using h
    · simp only [hext] at hq
      split_ifs at hq with hcase
      · rw [Option.some_inj] at hq
        subst hq; rfl
      · rw [Option.some_inj] at hq
        subst hq
        rcases not_and_or.mp hcase with h | h
        · exact absurd hne (by simpa using h)
        · simpa using h
  · intro stored p hp
    unfold savePath
    simp only [hext]
    rw [if_pos ⟨hne, hp⟩]

/-- Witness for C9: saving a Python tab to `notes.txt` writes
`notes.py`. -/
theorem save_forces_language_ext_witness :
    savePath "Python" none (some ⟨"dir", "notes", ".txt"⟩) =
      some ⟨"dir", "notes", ".py"⟩ :=
  (save_forces_language_ext "Python"
    ⟨".py", "examples/hello.py", "# ", .direct pythonRunner⟩ rfl
    (by decide)).2 none ⟨"dir", "notes", ".txt"⟩ (by decide)

/- ### C5: the compile step gates the run -/

/-- The compile-then-run tags of `get_run_command`. -/
def ctrTags : List String := ["java", "c", "cpp", "rust", "typescript", "kotlin"]

/-- The compile command the branch for each compile-then-run tag spawns. -/
def compileCmd (t : String) (filepath : Pathm) : List String :=
  if t = "java" then ["javac", strPath filepath]
  else if t = "c" then
    ["gcc", strPath filepath, "-o", strPath (withSuffix filepath ".out")]
  else if t = "cpp" then
    ["g++", strPath filepath, "-o", strPath (withSuffix filepath ".out")]
  else if t = "rust" then
    ["rustc", strPath filepath, "-o", strPath (withSuffix filepath ".out")]
  else if t = "typescript" then ["tsc", strPath filepath]
  else if t = "kotlin" then
    ["kotlinc", strPath filepath, "-include-runtime", "-d",
     strPath ⟨filepath.parent, "output", ".jar"⟩]
  else []

/-- The toolchain-missing message each compile-then-run branch prints. -/
def toolMissingMsg (t : String) : String :=
  if t = "java" then "Java compiler (javac) not found in PATH\n"
  else if t = "c" then "C compiler (gcc) not found in PATH\n"
  else if t = "cpp" then "C++ compiler (g++) not found in PATH\n"
  else if t = "rust" then "Rust compiler (rustc) not found in PATH\n"
  else if t = "typescript" then "TypeScript compiler (tsc) not found in PATH\n"
  else if t = "kotlin" then "Kotlin compiler (kotlinc) not found in PATH\n"
  else ""

/-- A string whose first two characters differ from `Co` is not a
compile-failed message, whatever the diagnostics. -/
lemma ne_compileFailedMsg (a : String) (h : a.data.take 2 ≠ ['C', 'o']) :
    ∀ d, a ≠ compileFailedMsg d := by
  intro d he
  apply h
  rw [he]
  show (compileFailedMsg d).data.take 2 = _
  unfold compileFailedMsg
  rw [String.data_append, String.data_append]
  rw [List.append_assoc,
      List.take_append_of_le_length (by decide : 2 ≤ ("Compilation failed:\n" : String).data.length)]
  rfl

/-- C5: for every compile-then-run language, a compiler binary missing
from the path yields the branch's distinct toolchain-missing report (never
equal to a compile-failed report), no run command, and no started run; a
compiler that exits non-zero yields a compile-failed report carrying the
compiler's diagnostics verbatim, again with no run command and no started
run. -/
theorem compile_step_gates_run :
    ∀ t ∈ ctrTags, ∀ (ctx : Ctx) (fp : Pathm) (language : String)
      (cfg : LangCfg),
      dictFind LANG_CONFIG language = some cfg → cfg.runner = .tag t →
      ((ctx.env (compileCmd t fp) = .notFound →
          getRunCommand ctx fp (some (.tag t)) =
            ⟨none, [toolMissingMsg t], []⟩ ∧
          (runCode ctx fp language).started = none ∧
          (∀ d, toolMissingMsg t ≠ compileFailedMsg d)) ∧
       (∀ (e : Nat) (out err : String),
          ctx.env (compileCmd t fp) = .ran e out err → e ≠ 0 →
          getRunCommand ctx fp (some (.tag t)) =
            ⟨none, [compileFailedMsg err], []⟩ ∧
          (runCode ctx fp language).started = none)) := by
  intro t ht ctx fp language cfg hfind hrun
  simp only [ctrTags, List.mem_cons, List.not_mem_nil, or_false] at ht
  rcases ht with rfl | rfl | rfl | rfl | rfl | rfl <;>
    refine ⟨fun henv => ?_, fun e out err henv hne => ?_⟩ <;>
    simp [compileCmd] at henv <;>
    first
      | exact ⟨by simp [getRunCommand, henv, toolMissingMsg],
               by simp [runCode, hfind, hrun, getRunCommand, henv],
               ne_compileFailedMsg _ (by decide)⟩
      | exact ⟨by simp [getRunCommand, henv, hne],
               by simp [runCode, hfind, hrun, getRunCommand, henv, hne]⟩

/-- Witness for C5: with every binary missing from the path, compiling a
C file reports the gcc-specific message and starts no run. -/
theorem compile_step_gates_run_witness :
    getRunCommand ⟨fun _ => .notFound⟩ ⟨"examples", "hello", ".c"⟩
        (some (.tag "c")) =
      ⟨none, ["C compiler (gcc) not found in PATH\n"], []⟩ ∧
    (runCode ⟨fun _ => .notFound⟩ ⟨"examples", "hello", ".c"⟩ "C").started =
      none := by
  have h := (compile_step_gates_run "c" (by decide) ⟨fun _ => .notFound⟩
    ⟨"examples", "hello", ".c"⟩ "C" ⟨".c", "examples/hello.c", "// ", .tag "c"⟩
    rfl rfl).1 rfl
  exact ⟨h.1, h.2.1⟩

/- ### C6 and C7: the bounded runner -/

/-- Count of `finished` emissions in an action list. -/
def finishedCount (events : List RunEvent) : Nat :=
  events.countP fun e =>
    match e with
    | .emitFinished => true
    | _ => false

/-- Count of kill actions in an action list. -/
def killCount (events : List RunEvent) : Nat :=
  events.countP fun e =>
    match e with
    | .killProcess => true
    | _ => false

/-- C6 (evaluated at the failing behaviour): when the child outlives the
60-second deadline of `communicate`, the thread emits exactly the single
explanatory timeout message and then the completion signal — but it never
terminates the child process: no kill action occurs anywhere in the
handler (on any path), contradicting the claimed forcible termination. -/
theorem timeout_single_message_but_no_kill :
    runnerRun .hangsPastTimeout =
      [.emitOutput "\n[Execution timeout after 60 seconds]\n",
       .emitFinished] ∧
    killCount (runnerRun .hangsPastTimeout) = 0 ∧
    (∀ b, killCount (runnerRun b) = 0) ∧
    RUN_TIMEOUT = 60 := by
  refine ⟨rfl, rfl, ?_, rfl⟩
  intro b
  cases b with
  | spawnFail m => rfl
  | exits out err =>
    simp only [runnerRun, killCount, List.countP_append]
    split_ifs <;> rfl
  | hangsPastTimeout => rfl

/-- C7: on every path the runner takes — normal exit, timeout, or a spawn
error of any kind — the completion signal is emitted exactly once and as
the final action, and every spawn error is rendered as the single
descriptive `[Error: ...]` output message instead of escaping. -/
theorem completion_signaled_exactly_once :
    (∀ b, finishedCount (runnerRun b) = 1 ∧
      (runnerRun b).getLast? = some .emitFinished) ∧
    (∀ m, runnerRun (.spawnFail m) =
      [.emitOutput ("\n[Error: " ++ m ++ "]\n"), .emitFinished]) := by
  refine ⟨?_, fun m => rfl⟩
  intro b
  cases b with
  | spawnFail m => exact ⟨rfl, rfl⟩
  | exits out err =>
    constructor
    · simp only [runnerRun, finishedCount, List.countP_append]
      split_ifs <;> rfl
    · simp only [runnerRun]
      rw [List.getLast?_append, List.getLast?_append]
      rfl
  | hangsPastTimeout => exact ⟨rfl, rfl⟩

/- ### C8: characterisation of the call-target rule -/

/-- Index shift between `drop` and `get?` (self-contained form). -/
lemma get?_drop_add (t : List Char) (i j : Nat) :
    (t.drop i).get? j = t.get? (i + j) := by
  induction t generalizing i j with
  | nil => simp
  | cons c rest ih =>
    cases i with
    | zero => simp
    | succ i =>
      simp only [List.drop_succ_cons, ih, Nat.succ_add]
      rfl

/-- Every offset strictly inside the measured run satisfies the
predicate. -/
lemma runLen_lt_sat (p : Char → Bool) (xs : List Char) (j : Nat)
    (h : j < runLen p xs) : ∃ c, xs.get? j = some c ∧ p c = true := by
  induction xs generalizing j with
  | nil => simp [runLen] at h
  | cons c rest ih =>
    simp only [runLen] at h
    by_cases hp : p c
    · rw [if_pos hp] at h
      cases j with
      | zero => exact ⟨c, rfl, hp⟩
      | succ j => exact ih j (Nat.lt_of_succ_lt_succ h)
    · rw [if_neg hp] at h
      exact absurd h (Nat.not_lt_zero j)

/-- The character just past the measured run, if any, fails the
predicate. -/
lemma runLen_stop (p : Char → Bool) (xs : List Char) (c : Char)
    (h : xs.get? (runLen p xs) = some c) : p c = false := by
  induction xs with
  | nil => exact Option.noConfusion h
  | cons d rest ih =>
    simp only [runLen] at h
    by_cases hp : p d
    · rw [if_pos hp] at h
      exact ih h
    · rw [if_neg hp] at h
      simp only [List.get?] at h
      rw [Option.some_inj] at h
      subst h
      exact Bool.of_not_eq_true hp

/-- The run length is determined by satisfaction below and failure at the
bound. -/
lemma runLen_eq_of (p : Char → Bool) (xs : List Char) (n : Nat)
    (hall : ∀ j < n, ∃ c, xs.get? j = some c ∧ p c = true)
    (hstop : ∀ c, xs.get? n = some c → p c = false) : runLen p xs = n := by
  induction xs generalizing n with
  | nil =>
    cases n with
    | zero => rfl
    | succ n =>
      obtain ⟨c, hc, _⟩ := hall 0 (Nat.succ_pos n)
      exact Option.noConfusion hc
  | cons d rest ih =>
    cases n with
    | zero =>
      have hd := hstop d rfl
      simp [runLen, hd]
    | succ n =>
      obtain ⟨c, hc, hpc⟩ := hall 0 (Nat.succ_pos n)
      simp only [List.get?] at hc
      rw [Option.some_inj] at hc
      subst hc
      simp only [runLen, if_pos hpc, Nat.succ_eq_add_one, Nat.add_left_inj]
      exact ih n (fun j hj => hall (j + 1) (Nat.succ_lt_succ hj))
        (fun c hc => hstop c hc)

/-- The declarative reading of one call-target match: a nonempty maximal
identifier-shaped token starting at a word boundary, immediately followed
by an opening parenthesis that the match does not include. -/
def IsCallSpan (t : List Char) (s l : Nat) : Prop :=
  0 < l ∧
  (∃ c, t.get? s = some c ∧ isIdentStart c = true) ∧
  (∀ j < l, ∃ c, t.get? (s + j) = some c ∧ isWordChar c = true) ∧
  t.get? (s + l) = some '(' ∧
  (s = 0 ∨ ∃ c, t.get? (s - 1) = some c ∧ isWordChar c = false)

/-- An identifier-start character is a word character. -/
lemma isWordChar_of_isIdentStart (c : Char) (h : isIdentStart c = true) :
    isWordChar c = true := by
  unfold isIdentStart at h
  unfold isWordChar
  rcases Bool.or_eq_true_iff.mp h with h' | h'
  · simp [h']
  · simp [h']

/-- The pointwise matcher agrees with the declarative reading. -/
lemma callMatchAt_iff (t : List Char) (s l : Nat) :
    callMatchAt t s = some l ↔ IsCallSpan t s l := by
  constructor
  · intro h
    unfold callMatchAt at h
    split at h
    · exact Option.noConfusion h
    · rename_i c hc
      split_ifs at h with hcond hpar
      · rw [Option.some_inj] at h
        subst h
        have hrun0 : 0 < runLen isWordChar (t.drop s) := by
          by_contra h0
          have hz : runLen isWordChar (t.drop s) = 0 :=
            Nat.eq_zero_of_not_pos h0
          have hget : (t.drop s).get? 0 = some c := by
            rw [get?_drop_add, Nat.add_zero]; exact hc
          have hstop := runLen_stop isWordChar (t.drop s) c
            (by rw [hz]; exact hget)
          rw [isWordChar_of_isIdentStart c hcond.2] at hstop
          exact Bool.noConfusion hstop
        refine ⟨hrun0, ⟨c, hc, hcond.2⟩, ?_, ?_, ?_⟩
        · intro j hj
          obtain ⟨d, hd, hpd⟩ := runLen_lt_sat isWordChar (t.drop s) j hj
          rw [get?_drop_add] at hd
          exact ⟨d, hd, hpd⟩
        · exact hpar
        · have hb := hcond.1
          unfold boundaryBefore at hb
          rcases Bool.or_eq_true_iff.mp hb with hb | hb
          · exact Or.inl (of_decide_eq_true hb)
          · have hw : wordAt t (s - 1) = false := by
              cases hval : wordAt t (s - 1)
              · rfl
              · rw [hval] at hb; exact Bool.noConfusion hb
            right
            unfold wordAt at hw
            cases hch : charAt t (s - 1) with
            | none =>
              exfalso
              have hlen : s < t.length := by
                rcases List.get?_eq_some.mp hc with ⟨hlt, _⟩
                exact hlt
              have hlt1 : s - 1 < t.length :=
                Nat.lt_of_le_of_lt (Nat.sub_le s 1) hlen
              unfold charAt at hch
              rw [List.get?_eq_get hlt1] at hch
              exact Option.noConfusion hch
            | some d =>
              rw [hch] at hw
              exact ⟨d, hch, hw⟩
  · rintro ⟨hl, ⟨c, hc, hstart⟩, hword, hpar, hbound⟩
    have hrun : runLen isWordChar (t.drop s) = l := by
      apply runLen_eq_of
      · intro j hj
        obtain ⟨d, hd, hpd⟩ := hword j hj
        exact ⟨d, by rw [get?_drop_add]; exact hd, hpd⟩
      · intro d hd
        rw [get?_drop_add] at hd
        rw [hpar] at hd
        rw [Option.some_inj] at hd
        subst hd
        rfl
    have hb : boundaryBefore t s = true := by
      unfold boundaryBefore
      rcases hbound with rfl | ⟨d, hd, hwd⟩
      · simp
      · have hw : wordAt t (s - 1) = false := by
          unfold wordAt charAt
          rw [hd]
          exact hwd
        rw [hw]
        simp
    have hval : callMatchAt t s = some (runLen isWordChar (t.drop s)) := by
      unfold callMatchAt
      split
      · rename_i hnone
        rw [show charAt t s = t.get? s from rfl, hc] at hnone
        exact Option.noConfusion hnone
      · rename_i c' hc'
        rw [show charAt t s = t.get? s from rfl, hc, Option.some_inj] at hc'
        subst hc'
        rw [if_pos ⟨hb, hstart⟩, if_pos]
        rw [hrun]
        show t.get? (s + l) = some '('
        exact hpar
    rw [hval, hrun]

/-- Matches reported by the scan are exactly the offsets accepted by the
pointwise matcher, provided no accepted match starts strictly inside
another (which the scan would skip) and accepted matches start in
bounds. -/
lemma scanAux_mem (f : List Char → Nat → Option Nat) (t : List Char)
    (hb : ∀ s l, f t s = some l → s < t.length)
    (hno : ∀ s l j, f t s = some l → s < j → j < s + max l 1 → f t j = none) :
    ∀ (fuel s₀ : Nat), t.length ≤ s₀ + fuel →
      ∀ s l, ((s, l) ∈ scanAux f t fuel s₀ ↔ s₀ ≤ s ∧ f t s = some l) := by
  intro fuel
  induction fuel with
  | zero =>
    intro s₀ hlen s l
    simp only [scanAux, List.not_mem_nil, false_iff, not_and]
    intro hs hf
    exact absurd (hb s l hf) (Nat.not_lt.mpr (Nat.le_trans hlen hs))
  | succ fuel ih =>
    intro s₀ hlen s l
    simp only [scanAux]
    by_cases hstop : t.length ≤ s₀
    · rw [if_pos hstop]
      simp only [List.not_mem_nil, false_iff, not_and]
      intro hs hf
      exact absurd (hb s l hf) (Nat.not_lt.mpr (Nat.le_trans hstop hs))
    · rw [if_neg hstop]
      cases hf : f t s₀ with
      | none =>
        rw [ih (s₀ + 1) (by omega) s l]
        constructor
        · rintro ⟨hs, hfs⟩
          exact ⟨by omega, hfs⟩
        · rintro ⟨hs, hfs⟩
          refine ⟨?_, hfs⟩
          rcases Nat.eq_or_lt_of_le hs with rfl | hlt
          · rw [hfs] at hf; exact Option.noConfusion hf
          · omega
      | some l₀ =>
        simp only [List.mem_cons]
        rw [ih (s₀ + max l₀ 1) (by omega) s l]
        constructor
        · rintro (heq | ⟨hs, hfs⟩)
          · obtain ⟨h1, h2⟩ := Prod.mk.injEq .. ▸ heq
            subst h1; subst h2
            exact ⟨Nat.le_refl _, hf⟩
          · exact ⟨by omega, hfs⟩
        · rintro ⟨hs, hfs⟩
          rcases Nat.eq_or_lt_of_le hs with rfl | hlt
          · rw [hfs] at hf
            rw [Option.some_inj] at hf
            subst hf
            exact Or.inl rfl
          · right
            refine ⟨?_, hfs⟩
            by_contra hin
            have : s < s₀ + max l₀ 1 := Nat.lt_of_not_le hin
            have := hno s₀ l₀ s hf hlt this
            rw [hfs] at this
            exact Option.noConfusion this

/-- C8: the call-target rule marks exactly the identifier-shaped tokens
immediately followed by an opening parenthesis (the lookahead leaves the
parenthesis outside the span); on `foo(bar)` the rule produces the single
span over `foo`, which covers offsets 0 and 2 but neither 4 nor 6 (the
letters of `bar`). -/
theorem call_target_marks_exactly :
    (∀ (t : List Char) (s l : Nat),
        (s, l) ∈ reFinditer callMatchAt t ↔ IsCallSpan t s l) ∧
    reFinditer callMatchAt "foo(bar)".data = [(0, 3)] ∧
    covers (reFinditer callMatchAt "foo(bar)".data) 0 ∧
    covers (reFinditer callMatchAt "foo(bar)".data) 2 ∧
    ¬ covers (reFinditer callMatchAt "foo(bar)".data) 4 ∧
    ¬ covers (reFinditer callMatchAt "foo(bar)".data) 6 := by
  refine ⟨?_, by decide, by decide, by decide, by decide, by decide⟩
  intro t s l
  have hb : ∀ s l, callMatchAt t s = some l → s < t.length := by
    intro s l h
    obtain ⟨_, ⟨c, hc, _⟩, _, _, _⟩ := (callMatchAt_iff t s l).mp h
    rcases List.get?_eq_some.mp hc with ⟨hlt, _⟩
    exact hlt
  have hno : ∀ s l j, callMatchAt t s = some l → s < j → j < s + max l 1 →
      callMatchAt t j = none := by
    intro s l j hm hsj hjl
    obtain ⟨hl, _, hword, _, _⟩ := (callMatchAt_iff t s l).mp hm
    rw [Nat.max_eq_left hl] at hjl
    obtain ⟨d, hd, hpd⟩ := hword (j - 1 - s) (by omega)
    have hidx : s + (j - 1 - s) = j - 1 := by omega
    rw [hidx] at hd
    have hbf : boundaryBefore t j = false := by
      unfold boundaryBefore wordAt charAt
      rw [hd]
      have hj0 : j ≠ 0 := by omega
      simp [hj0, hpd]
    unfold callMatchAt
    split
    · rfl
    · rename_i c hc
      have hcc : ¬ (boundaryBefore t j = true ∧ isIdentStart c = true) := by
        intro hcc
        rw [hbf] at hcc
        exact Bool.noConfusion hcc.1
      rw [if_neg hcc]
  unfold reFinditer
  rw [scanAux_mem callMatchAt t hb hno t.length 0 (by omega) s l,
      callMatchAt_iff]
  simp

/-- Witness for C8: the characterisation instantiated on `foo(bar)`
yields the declarative call span over `foo`. -/
theorem call_target_marks_exactly_witness :
    IsCallSpan "foo(bar)".data 0 3 :=
  (call_target_marks_exactly.1 "foo(bar)".data 0 3).mp (by decide)

end Mocha
